import Mathlib

/-!
# Lineup-Optimization: verification of the request surface and constraint pre-check

A shallow embedding of the TypeScript sources of the Lineup-Optimization web app:

* `src/web-app/src/components/build/buildController.tsx` — the handedness
  feasibility pre-check (`isConstraintImpossible`, its inner `dfs`) and the
  Next-button guard;
* `src/unnamed/part_016` — a second in-repo variant of the same pre-check
  whose cap guards additionally require `limit > 0`;
* `src/web-app/src/pages/api/submit-lineup.ts` — the lineup-submission API
  handler (`parseName`, `makeId`, `getRandomElement`, `handler`);
* `src/web-app/src/server/api/routers/mlb.ts` — the MLB season-stats
  ingestion (`getPlayerStats`'s split-to-season mapping).

JavaScript numbers that hold stat counts are modelled as `ℚ` (request JSON) or
`ℤ` (integer API counts); machine floating point does not matter for any value
handled here (the only non-integral constant is `7.5`, exactly representable).
JavaScript objects with integer keys are modelled as association lists kept in
ascending key order, matching both the key → value semantics and the canonical
ascending enumeration/serialization order of integer-keyed JS objects.

`Math.random`-driven choice (`getRandomElement`) is modelled by an explicit
`pick : List ℕ → Option ℕ` parameter: the source shuffles a copy of the array
with a random comparator and takes element 0, so the realizable behaviours are
exactly "return some element of the (nonempty) list"; `pick`s such as
`List.head?` and `List.getLast?` are concrete realizable outcomes.
-/

/-- Batter handedness, mirroring the Prisma `BattingHand` enum values
`"LEFT" | "RIGHT" | "SWITCH"` used by `buildController.tsx`. -/
inductive Hand where
  | LEFT : Hand
  | RIGHT : Hand
  | SWITCH : Hand
  deriving DecidableEq, Repr

/-- The player record reached through `ps.player` in `buildController.tsx`;
only `battingHand` is consulted by the pre-check (`none` models an
`undefined` handedness). -/
structure PlayerLite where
  battingHand : Option Hand
  deriving DecidableEq, Repr

/-- Season stat counts as they appear in the request JSON
(`SeasonStats` in `submit-lineup.ts`). JS numbers are modelled as `ℚ`. -/
structure SeasonStats where
  plateAppearances : ℚ
  hits : ℚ
  doubles : ℚ
  triples : ℚ
  homeruns : ℚ
  walks : ℚ
  hitByPitch : ℚ
  intentionalWalks : ℚ
  runs : ℚ
  singles : ℚ
  deriving DecidableEq, Repr

/-- The slice of the UI `PlayerSeason` consulted by `buildController.tsx`:
`ps.player?.battingHand` and `ps.season` (present or not). -/
structure PlayerSeasonLite where
  player : Option PlayerLite
  season : Option SeasonStats
  deriving DecidableEq, Repr

/-- All ways to pick one element out of a list, each paired with the list of
remaining elements in order; entry `i` is `(l[i], l.take i ++ l.drop (i+1))`,
exactly the `(remaining[i], rest)` pairs produced by the `for` loop inside
`dfs` (`rest = [...remaining.slice(0, i), ...remaining.slice(i + 1)]`). -/
def picks {α : Type} : List α → List (α × List α)
  | [] => []
  | x :: xs => (x, xs) :: (picks xs).map (fun p => (p.1, x :: p.2))

/-- The recursive search of `buildController.tsx`'s `isConstraintImpossible`:

```ts
const dfs = (remaining, last, leftStreak, rightStreak) => {
  if (remaining.length === 0) return true;
  for (let i = 0; i < remaining.length; i++) {
    const hand = remaining[i]; const rest = ...;
    if (hand === "LEFT") {
      if (last === "LEFT" && leftStreak + 1 > maxConsecutiveHandedness[0]) continue;
      if (dfs(rest, "LEFT", last === "LEFT" ? leftStreak + 1 : 1, 0)) return true;
    } else if (hand === "RIGHT") {
      if (last === "RIGHT" && rightStreak + 1 > maxConsecutiveHandedness[1]) continue;
      if (dfs(rest, "RIGHT", 0, last === "RIGHT" ? rightStreak + 1 : 1)) return true;
    }
  }
  return false;
};
```

The fuel argument is always called with `fuel = remaining.length` (each
recursive call removes exactly one element), so the `fuel = 0, remaining ≠ []`
branch is unreachable on the calls the source makes. -/
def dfsAux (Lmax Rmax : ℕ) : ℕ → List Hand → Option Hand → ℕ → ℕ → Bool
  | _, [], _, _, _ => true
  | 0, _ :: _, _, _, _ => false
  | fuel + 1, c :: cs, last, lS, rS =>
    (picks (c :: cs)).any fun p =>
      match p.1 with
      | Hand.LEFT =>
        if last = some Hand.LEFT ∧ Lmax < lS + 1 then false
        else dfsAux Lmax Rmax fuel p.2 (some Hand.LEFT)
          (if last = some Hand.LEFT then lS + 1 else 1) 0
      | Hand.RIGHT =>
        if last = some Hand.RIGHT ∧ Rmax < rS + 1 then false
        else dfsAux Lmax Rmax fuel p.2 (some Hand.RIGHT)
          0 (if last = some Hand.RIGHT then rS + 1 else 1)
      | Hand.SWITCH => false

/-- The source's top-level call `dfs(hands, null, 0, 0)`. -/
def dfs (Lmax Rmax : ℕ) (hands : List Hand) : Bool :=
  dfsAux Lmax Rmax hands.length hands none 0 0

/-- The `hands` list of `isConstraintImpossible`:
`selectedPlayerSeasons.map(ps => ps.player?.battingHand)
  .filter(h => h === "LEFT" || h === "RIGHT")`. -/
def handsOf (players : List PlayerSeasonLite) : List Hand :=
  players.filterMap fun ps =>
    match ps.player with
    | some pl =>
      match pl.battingHand with
      | some Hand.LEFT => some Hand.LEFT
      | some Hand.RIGHT => some Hand.RIGHT
      | _ => none
    | none => none

/-- `isConstraintImpossible` from `buildController.tsx`
(`maxConsecutiveHandedness = [Lmax, Rmax]`, `step` is the wizard step):
returns `false` unless `step === 1`; filters the nine players' handedness to
LEFT/RIGHT tokens; returns `false` unless exactly nine remain; otherwise
reports the negation of the `dfs` search result. -/
def isConstraintImpossible (Lmax Rmax : ℕ) (players : List PlayerSeasonLite)
    (step : ℕ) : Bool :=
  if step ≠ 1 then false
  else
    let hands := handsOf players
    if hands.length ≠ 9 then false
    else !(dfs Lmax Rmax hands)

/-- The `dfs` of the `src/unnamed/part_016` variant of the build controller:
identical to `dfsAux` except that each cap prune additionally requires the
cap to be defined and `> 0`
(`leftLimit !== undefined && leftLimit > 0 && leftStreak + 1 > leftLimit`).
Caps are `Option ℕ` (`none` models `undefined`). -/
def dfsAux016 (Lmax Rmax : Option ℕ) : ℕ → List Hand → Option Hand → ℕ → ℕ → Bool
  | _, [], _, _, _ => true
  | 0, _ :: _, _, _, _ => false
  | fuel + 1, c :: cs, last, lS, rS =>
    (picks (c :: cs)).any fun p =>
      match p.1 with
      | Hand.LEFT =>
        if last = some Hand.LEFT ∧ (∃ lim, Lmax = some lim ∧ 0 < lim ∧ lim < lS + 1) then false
        else dfsAux016 Lmax Rmax fuel p.2 (some Hand.LEFT)
          (if last = some Hand.LEFT then lS + 1 else 1) 0
      | Hand.RIGHT =>
        if last = some Hand.RIGHT ∧ (∃ lim, Rmax = some lim ∧ 0 < lim ∧ lim < rS + 1) then false
        else dfsAux016 Lmax Rmax fuel p.2 (some Hand.RIGHT)
          0 (if last = some Hand.RIGHT then rS + 1 else 1)
      | Hand.SWITCH => false

/-- `isConstraintImpossible` from `src/unnamed/part_016`: additionally returns
`false` when both caps are `undefined`, and uses the guarded `dfs` prune. -/
def isConstraintImpossible016 (Lmax Rmax : Option ℕ)
    (players : List PlayerSeasonLite) (step : ℕ) : Bool :=
  if step ≠ 1 then false
  else if Lmax = none ∧ Rmax = none then false
  else
    let hands := handsOf players
    if hands.length ≠ 9 then false
    else !(dfsAux016 Lmax Rmax hands.length hands none 0 0)

/-- The Next-button guard in `buildController.tsx`:
`selectedPlayerSeasons.length !== 9 || selectedPlayerSeasons.some(ps => !ps.season)
 || isConstraintImpossible`. -/
def nextDisabled (Lmax Rmax : ℕ) (players : List PlayerSeasonLite)
    (step : ℕ) : Bool :=
  decide (players.length ≠ 9) || players.any (fun ps => ps.season.isNone)
    || isConstraintImpossible Lmax Rmax players step

/-- A selected player whose battingHand is `h`, with a season present. -/
def mkPlayer (h : Hand) : PlayerSeasonLite :=
  { player := some { battingHand := some h }, season := none }

example : isConstraintImpossible 1 0 (List.replicate 9 (mkPlayer Hand.LEFT)) 1 = true := by decide
example : isConstraintImpossible 0 0 (List.replicate 9 (mkPlayer Hand.LEFT)) 1 = true := by decide
example : isConstraintImpossible016 (some 0) (some 0)
    (List.replicate 9 (mkPlayer Hand.LEFT)) 1 = false := by decide
example : isConstraintImpossible 4 4
    (List.replicate 8 (mkPlayer Hand.LEFT) ++ [mkPlayer Hand.RIGHT]) 1 = false := by decide
example : isConstraintImpossible 1 1
    (List.replicate 8 (mkPlayer Hand.LEFT) ++ [mkPlayer Hand.SWITCH]) 1 = false := by decide
example : isConstraintImpossible 2 2
    (List.replicate 5 (mkPlayer Hand.LEFT) ++ List.replicate 4 (mkPlayer Hand.RIGHT)) 1
    = false := by decide

/-- Straight-line validity of one concrete ordering of handedness tokens,
starting from search state `(last, lS, rS)`: the sequence passes iff no
placement would have been pruned by `dfs`'s streak conditions. This is the
"linear arrangement" the `dfs` backtracking search looks for (the source walks
the order once, without wrapping from the last batter back to the first). -/
def linOkFrom (Lmax Rmax : ℕ) : Option Hand → ℕ → ℕ → List Hand → Bool
  | _, _, _, [] => true
  | last, lS, _, Hand.LEFT :: t =>
    if last = some Hand.LEFT ∧ Lmax < lS + 1 then false
    else linOkFrom Lmax Rmax (some Hand.LEFT)
      (if last = some Hand.LEFT then lS + 1 else 1) 0 t
  | last, _, rS, Hand.RIGHT :: t =>
    if last = some Hand.RIGHT ∧ Rmax < rS + 1 then false
    else linOkFrom Lmax Rmax (some Hand.RIGHT)
      0 (if last = some Hand.RIGHT then rS + 1 else 1) t
  | _, _, _, Hand.SWITCH :: _ => false

theorem picks_mem_length {α : Type} {p : α × List α} :
    ∀ {l : List α}, p ∈ picks l → p.2.length + 1 = l.length := by
  intro l
  induction l generalizing p with
  | nil => simp [picks]
  | cons x xs ih =>
    intro hp
    simp only [picks, List.mem_cons] at hp
    rcases hp with h | h
    · subst h; simp
    · obtain ⟨q, hq, hqe⟩ := List.mem_map.mp h
      have := ih hq
      subst hqe
      simp only [List.length_cons]
      omega

theorem picks_mem_perm {α : Type} {p : α × List α} :
    ∀ {l : List α}, p ∈ picks l → l.Perm (p.1 :: p.2) := by
  intro l
  induction l generalizing p with
  | nil => simp [picks]
  | cons x xs ih =>
    intro hp
    simp only [picks, List.mem_cons] at hp
    rcases hp with h | h
    · subst h; exact List.Perm.refl _
    · obtain ⟨q, hq, hqe⟩ := List.mem_map.mp h
      subst hqe
      exact ((ih hq).cons x).trans (List.Perm.swap q.1 x q.2)

theorem exists_picks_of_mem {α : Type} {a : α} :
    ∀ {l : List α}, a ∈ l → ∃ ys, (a, ys) ∈ picks l ∧ l.Perm (a :: ys) := by
  intro l
  induction l with
  | nil => simp
  | cons x xs ih =>
    intro ha
    rcases List.mem_cons.mp ha with h | h
    · subst h; exact ⟨xs, by simp [picks], List.Perm.refl _⟩
    · obtain ⟨ys, hm, hp⟩ := ih h
      refine ⟨x :: ys, ?_, ?_⟩
      · simp only [picks, List.mem_cons]
        right
        exact List.mem_map.mpr ⟨(a, ys), hm, rfl⟩
      · exact (hp.cons x).trans (List.Perm.swap a x ys)

/-- Correctness of the backtracking search in `isConstraintImpossible`: with
fuel equal to the number of remaining tokens (as on every call the source
makes), `dfs` succeeds from a state iff some ordering of the remaining tokens
passes the straight-line streak check from that state. -/
theorem dfsAux_eq_true_iff (Lmax Rmax : ℕ) :
    ∀ (n : ℕ) (rem : List Hand) (last : Option Hand) (lS rS : ℕ),
      rem.length = n →
      (dfsAux Lmax Rmax n rem last lS rS = true ↔
        ∃ l, rem.Perm l ∧ linOkFrom Lmax Rmax last lS rS l = true) := by
  intro n
  induction n with
  | zero =>
    intro rem last lS rS hlen
    have : rem = [] := List.length_eq_zero.mp hlen
    subst this
    constructor
    · intro _
      exact ⟨[], List.Perm.refl _, rfl⟩
    · intro _
      rfl
  | succ n ih =>
    intro rem last lS rS hlen
    cases rem with
    | nil => simp at hlen
    | cons c cs =>
      have hcs : cs.length = n := by
        simp only [List.length_cons] at hlen
        omega
      simp only [dfsAux, List.any_eq_true]
      constructor
      · rintro ⟨⟨a, ys⟩, hp, hb⟩
        have hyslen : ys.length = n := by
          have h2 : ys.length + 1 = (c :: cs).length := picks_mem_length hp
          simp only [List.length_cons] at h2
          omega
        cases a with
        | LEFT =>
          simp only at hb
          by_cases hc : last = some Hand.LEFT ∧ Lmax < lS + 1
          · rw [if_pos hc] at hb
            exact absurd hb Bool.false_ne_true
          · rw [if_neg hc] at hb
            obtain ⟨l', hperm', hlin'⟩ := (ih ys (some Hand.LEFT)
              (if last = some Hand.LEFT then lS + 1 else 1) 0 hyslen).mp hb
            refine ⟨Hand.LEFT :: l', ?_, ?_⟩
            · exact (picks_mem_perm hp).trans (hperm'.cons Hand.LEFT)
            · simp only [linOkFrom, if_neg hc]
              exact hlin'
        | RIGHT =>
          simp only at hb
          by_cases hc : last = some Hand.RIGHT ∧ Rmax < rS + 1
          · rw [if_pos hc] at hb
            exact absurd hb Bool.false_ne_true
          · rw [if_neg hc] at hb
            obtain ⟨l', hperm', hlin'⟩ := (ih ys (some Hand.RIGHT)
              0 (if last = some Hand.RIGHT then rS + 1 else 1) hyslen).mp hb
            refine ⟨Hand.RIGHT :: l', ?_, ?_⟩
            · exact (picks_mem_perm hp).trans (hperm'.cons Hand.RIGHT)
            · simp only [linOkFrom, if_neg hc]
              exact hlin'
        | SWITCH =>
          simp at hb
      · rintro ⟨l, hperm, hlin⟩
        cases l with
        | nil =>
          have := hperm.length_eq
          simp at this
        | cons h t =>
          have htlen : t.length = n := by
            have h3 := hperm.length_eq
            simp only [List.length_cons] at h3
            omega
          cases h with
          | LEFT =>
            by_cases hc : last = some Hand.LEFT ∧ Lmax < lS + 1
            · simp only [linOkFrom, if_pos hc] at hlin
              exact absurd hlin Bool.false_ne_true
            · simp only [linOkFrom, if_neg hc] at hlin
              have hmem : Hand.LEFT ∈ (c :: cs) :=
                hperm.symm.subset (List.mem_cons_self _ _)
              obtain ⟨ys, hm, hperm2⟩ := exists_picks_of_mem hmem
              have hyslen : ys.length = n := by
                have h2 : ys.length + 1 = (c :: cs).length := picks_mem_length hm
                simp only [List.length_cons] at h2
                omega
              have htys : t.Perm ys :=
                (hperm.symm.trans hperm2).cons_inv
              refine ⟨(Hand.LEFT, ys), hm, ?_⟩
              simp only [if_neg hc]
              exact (ih ys (some Hand.LEFT)
                (if last = some Hand.LEFT then lS + 1 else 1) 0 hyslen).mpr
                ⟨t, htys.symm, hlin⟩
          | RIGHT =>
            by_cases hc : last = some Hand.RIGHT ∧ Rmax < rS + 1
            · simp only [linOkFrom, if_pos hc] at hlin
              exact absurd hlin Bool.false_ne_true
            · simp only [linOkFrom, if_neg hc] at hlin
              have hmem : Hand.RIGHT ∈ (c :: cs) :=
                hperm.symm.subset (List.mem_cons_self _ _)
              obtain ⟨ys, hm, hperm2⟩ := exists_picks_of_mem hmem
              have hyslen : ys.length = n := by
                have h2 : ys.length + 1 = (c :: cs).length := picks_mem_length hm
                simp only [List.length_cons] at h2
                omega
              have htys : t.Perm ys :=
                (hperm.symm.trans hperm2).cons_inv
              refine ⟨(Hand.RIGHT, ys), hm, ?_⟩
              simp only [if_neg hc]
              exact (ih ys (some Hand.RIGHT)
                0 (if last = some Hand.RIGHT then rS + 1 else 1) hyslen).mpr
                ⟨t, htys.symm, hlin⟩
          | SWITCH =>
            simp [linOkFrom] at hlin

/-- Longest run of consecutive tokens equal to `h`, tracking
(current run, best run) along the list. -/
def maxRunGo (h : Hand) : List Hand → ℕ → ℕ → ℕ
  | [], _, best => best
  | x :: xs, cur, best =>
    if x = h then maxRunGo h xs (cur + 1) (max best (cur + 1))
    else maxRunGo h xs 0 best

/-- Longest run of consecutive `h` tokens in a list. -/
def maxRun (h : Hand) (l : List Hand) : ℕ := maxRunGo h l 0 0

/-- Modelled from the spec: the longest run of `h` on the cycle (the spec's
"the lineup repeats, so the last batter is adjacent to the first"), computed
by walking twice around the cycle (`l ++ l`) and capping at the cycle length. -/
def cyclicMaxRun (h : Hand) (l : List Hand) : ℕ :=
  min (maxRun h (l ++ l)) l.length

/-- Modelled from the spec: the cyclic handedness-cap rule of §3/§4.3 — a cap
violation is "run length > cap when cap > 0", runs counted on the cycle,
SWITCH breaking both runs (it is a distinct token, so it never extends
either). -/
def cyclicRunsFit (Lmax Rmax : ℕ) (l : List Hand) : Bool :=
  (decide (Lmax = 0) || decide (cyclicMaxRun Hand.LEFT l ≤ Lmax)) &&
  (decide (Rmax = 0) || decide (cyclicMaxRun Hand.RIGHT l ≤ Rmax))

/-- Modelled from the spec: the same cap rule counted linearly (no wrap),
the weakest reading under which a SWITCH token "cannot extend a LEFT run or a
RIGHT run, while caps remain enforced on the LEFT and RIGHT hitters around
it". -/
def linearRunsFit (Lmax Rmax : ℕ) (l : List Hand) : Bool :=
  (decide (Lmax = 0) || decide (maxRun Hand.LEFT l ≤ Lmax)) &&
  (decide (Rmax = 0) || decide (maxRun Hand.RIGHT l ≤ Rmax))

/-- All length-`n` lists whose entries come from `toks`; used to decide
properties of "every arrangement" of a fixed token multiset by enumeration. -/
def allOver (toks : List Hand) : ℕ → List (List Hand)
  | 0 => [[]]
  | n + 1 => toks.flatMap fun t => (allOver toks n).map (t :: ·)

theorem mem_allOver {toks : List Hand} :
    ∀ {n : ℕ} {l : List Hand},
      l ∈ allOver toks n ↔ l.length = n ∧ ∀ x ∈ l, x ∈ toks := by
  intro n
  induction n with
  | zero =>
    intro l
    constructor
    · intro h
      simp only [allOver, List.mem_singleton] at h
      subst h
      simp
    · rintro ⟨h1, _⟩
      have : l = [] := List.length_eq_zero.mp h1
      subst this
      simp [allOver]
  | succ n ih =>
    intro l
    cases l with
    | nil =>
      simp [allOver]
    | cons x xs =>
      constructor
      · intro h
        simp only [allOver, List.mem_flatMap, List.mem_map] at h
        obtain ⟨t, ht, q, hq, heq⟩ := h
        obtain ⟨rfl, rfl⟩ : t = x ∧ q = xs := by
          constructor <;> [exact (List.cons.injEq _ _ _ _ ▸ heq).1;
            exact (List.cons.injEq _ _ _ _ ▸ heq).2]
        obtain ⟨hlen, hmem⟩ := ih.mp hq
        refine ⟨by simp [hlen], ?_⟩
        intro y hy
        rcases List.mem_cons.mp hy with h | h
        · subst h; exact ht
        · exact hmem y h
      · rintro ⟨hlen, hmem⟩
        simp only [allOver, List.mem_flatMap, List.mem_map]
        refine ⟨x, hmem x (List.mem_cons_self _ _), xs, ?_, rfl⟩
        exact ih.mpr ⟨by simpa using hlen, fun y hy => hmem y (List.mem_cons_of_mem _ hy)⟩

theorem picks_fst_mem {α : Type} {p : α × List α} {l : List α}
    (hp : p ∈ picks l) : p.1 ∈ l :=
  (picks_mem_perm hp).mem_iff.mpr (List.mem_cons_self _ _)

theorem picks_snd_mem {α : Type} {p : α × List α} {l : List α} {x : α}
    (hp : p ∈ picks l) (hx : x ∈ p.2) : x ∈ l :=
  (picks_mem_perm hp).mem_iff.mpr (List.mem_cons_of_mem _ hx)

/-- Nine LEFT-handed player seasons (with stats present), as the UI holds
them. -/
def players9L : List PlayerSeasonLite := List.replicate 9 (mkPlayer Hand.LEFT)

/-- Eight LEFT-handed and one RIGHT-handed player seasons. -/
def players8L1R : List PlayerSeasonLite :=
  List.replicate 8 (mkPlayer Hand.LEFT) ++ [mkPlayer Hand.RIGHT]

/-- Eight LEFT-handed player seasons and one SWITCH hitter. -/
def players8L1S : List PlayerSeasonLite :=
  List.replicate 8 (mkPlayer Hand.LEFT) ++ [mkPlayer Hand.SWITCH]

/-- The full handedness token list of a roster (before the pre-check's
LEFT/RIGHT filter); this is the claim-level "multiset of nine handedness
tokens". -/
def allHandsOf (players : List PlayerSeasonLite) : List Hand :=
  players.filterMap fun ps => ps.player.bind (·.battingHand)

example : handsOf players8L1R = List.replicate 8 Hand.LEFT ++ [Hand.RIGHT] := by decide
example : allHandsOf players8L1S = List.replicate 8 Hand.LEFT ++ [Hand.SWITCH] := by decide
example : cyclicRunsFit 4 4 (List.replicate 8 Hand.LEFT ++ [Hand.RIGHT]) = false := by decide
example : cyclicRunsFit 1 1
    [Hand.LEFT, Hand.RIGHT, Hand.LEFT, Hand.RIGHT, Hand.LEFT, Hand.RIGHT,
     Hand.LEFT, Hand.RIGHT, Hand.LEFT] = false := by decide
example : cyclicRunsFit 2 2
    [Hand.LEFT, Hand.LEFT, Hand.RIGHT, Hand.LEFT, Hand.RIGHT, Hand.LEFT,
     Hand.RIGHT, Hand.LEFT, Hand.RIGHT] = true := by decide

/-- C4 (counterexample): with eight LEFT and one RIGHT hitter and caps
(Lmax, Rmax) = (4, 4), the pre-check declares the constraints feasible, yet
every arrangement of the multiset has a cyclic LEFT run of length 8 > 4: the
pre-check does not use the cyclic run rule, so "infeasible iff no cyclic
arrangement fits" fails at this input. -/
theorem C4_cyclic_rule_counterexample :
    ¬ ((isConstraintImpossible 4 4 players8L1R 1 = true) ↔
        ¬ ∃ l, (handsOf players8L1R).Perm l ∧ cyclicRunsFit 4 4 l = true) := by
  intro hiff
  have h1 : isConstraintImpossible 4 4 players8L1R 1 = false := by decide
  have key : ∀ l ∈ allOver [Hand.LEFT, Hand.RIGHT] 9,
      l.count Hand.LEFT = 8 → cyclicRunsFit 4 4 l = false := by
    set_option maxRecDepth 4000 in decide
  have h2 : ¬ ∃ l, (handsOf players8L1R).Perm l ∧ cyclicRunsFit 4 4 l = true := by
    rintro ⟨l, hperm, hfit⟩
    have hmemall : l ∈ allOver [Hand.LEFT, Hand.RIGHT] 9 := by
      refine mem_allOver.mpr ⟨?_, ?_⟩
      · have := hperm.length_eq
        simpa using this.symm
      · intro x hx
        have hxh : x ∈ handsOf players8L1R := hperm.mem_iff.mpr hx
        have : handsOf players8L1R = List.replicate 8 Hand.LEFT ++ [Hand.RIGHT] := by decide
        rw [this] at hxh
        simp only [List.mem_append, List.mem_replicate, List.mem_singleton] at hxh
        rcases hxh with ⟨_, h⟩ | h <;> simp [h]
    have hcount : l.count Hand.LEFT = 8 := by
      have hc := hperm.count_eq Hand.LEFT
      have : (handsOf players8L1R).count Hand.LEFT = 8 := by decide
      omega
    rw [key l hmemall hcount] at hfit
    exact absurd hfit Bool.false_ne_true
  have := hiff.mpr h2
  rw [h1] at this
  exact absurd this Bool.false_ne_true

/-- C4 (amended): the pre-check's search is over linear orders — it declares
the constraints infeasible iff no arrangement of the nine LEFT/RIGHT tokens
passes the straight-line streak rule of its `dfs` (a cap prunes a same-hand
extension whose streak would exceed it, with no wrap from the last batter to
the first). -/
theorem C4_linear_feasibility (Lmax Rmax : ℕ) (players : List PlayerSeasonLite)
    (h9 : (handsOf players).length = 9) :
    (isConstraintImpossible Lmax Rmax players 1 = true ↔
      ¬ ∃ l, (handsOf players).Perm l ∧ linOkFrom Lmax Rmax none 0 0 l = true) := by
  have hstep : ¬ ((1 : ℕ) ≠ 1) := by omega
  have h9' : ¬ ((handsOf players).length ≠ 9) := by omega
  simp only [isConstraintImpossible, if_neg hstep, if_neg h9']
  rw [Bool.not_eq_true', Bool.eq_false_iff]
  simp only [dfs]
  exact not_congr
    (dfsAux_eq_true_iff Lmax Rmax (handsOf players).length (handsOf players) none 0 0 rfl)

/-- C4 (witness for the amended theorem): at nine LEFT hitters with caps
(1, 0), the pre-check declares infeasibility, hence — by the amended theorem —
no linear arrangement passes the streak rule. -/
theorem C4_linear_feasibility_witness :
    ¬ ∃ l, (handsOf players9L).Perm l ∧ linOkFrom 1 0 none 0 0 l = true :=
  (C4_linear_feasibility 1 0 players9L (by decide)).mp (by decide)

/-- C5 (code evaluation at the failing input): with caps (0, 0) — "no cap"
per the spec — and nine LEFT hitters, `buildController.tsx`'s pre-check
declares the constraints infeasible, while the `part_016` variant of the same
pre-check (whose prunes require `limit > 0`) does not. -/
theorem C5_cap_zero_bug_eval :
    isConstraintImpossible 0 0 players9L 1 = true ∧
      isConstraintImpossible016 (some 0) (some 0) players9L 1 = false := by
  constructor <;> decide

/-- C6 (counterexample): with eight LEFT hitters and one SWITCH hitter and
caps (1, 1), no arrangement keeps the LEFT runs within the cap even when the
SWITCH token resets runs — yet the pre-check reports the constraints
feasible: it does not run with a SWITCH hitter modelled as a reset token, so
the claim fails at this input. -/
theorem C6_switch_reset_counterexample :
    isConstraintImpossible 1 1 players8L1S 1 = false ∧
      ∀ l, (allHandsOf players8L1S).Perm l → linearRunsFit 1 1 l = false := by
  refine ⟨by decide, ?_⟩
  intro l hperm
  have key : ∀ l ∈ allOver [Hand.LEFT, Hand.SWITCH] 9,
      l.count Hand.LEFT = 8 → linearRunsFit 1 1 l = false := by
    set_option maxRecDepth 4000 in decide
  have hmemall : l ∈ allOver [Hand.LEFT, Hand.SWITCH] 9 := by
    refine mem_allOver.mpr ⟨?_, ?_⟩
    · have := hperm.length_eq
      simpa using this.symm
    · intro x hx
      have hxh : x ∈ allHandsOf players8L1S := hperm.mem_iff.mpr hx
      have : allHandsOf players8L1S = List.replicate 8 Hand.LEFT ++ [Hand.SWITCH] := by decide
      rw [this] at hxh
      simp only [List.mem_append, List.mem_replicate, List.mem_singleton] at hxh
      rcases hxh with ⟨_, h⟩ | h <;> simp [h]
  have hcount : l.count Hand.LEFT = 8 := by
    have hc := hperm.count_eq Hand.LEFT
    have : (allHandsOf players8L1S).count Hand.LEFT = 8 := by decide
    omega
  exact key l hmemall hcount

/-- C6 (amended): when any of the nine hitters is a SWITCH hitter (or has no
recorded handedness), the LEFT/RIGHT filter leaves fewer than nine tokens and
the pre-check returns "feasible" without running its search at all: SWITCH
hitters disable the feasibility pre-check rather than acting as reset
tokens. -/
theorem C6_switch_skips_precheck (Lmax Rmax : ℕ) (players : List PlayerSeasonLite)
    (step : ℕ) (h : (handsOf players).length ≠ 9) :
    isConstraintImpossible Lmax Rmax players step = false := by
  by_cases hs : step ≠ 1
  · simp [isConstraintImpossible, hs]
  · simp [isConstraintImpossible, hs, h]

/-- C6 (witness for the amended theorem): the pre-check is skipped for the
eight-LEFT-one-SWITCH roster. -/
theorem C6_switch_skips_precheck_witness :
    isConstraintImpossible 1 1 players8L1S 1 = false :=
  C6_switch_skips_precheck 1 1 players8L1S 1 (by decide)

theorem dfsAux_allLeft_false (Rmax : ℕ) :
    ∀ (n : ℕ) (rem : List Hand), (∀ x ∈ rem, x = Hand.LEFT) → rem ≠ [] →
      dfsAux 1 Rmax n rem (some Hand.LEFT) 1 0 = false := by
  intro n rem hall hne
  cases n with
  | zero =>
    cases rem with
    | nil => exact absurd rfl hne
    | cons c cs => rfl
  | succ n =>
    cases rem with
    | nil => exact absurd rfl hne
    | cons c cs =>
      simp only [dfsAux]
      rw [List.any_eq_false]
      rintro ⟨a, ys⟩ hp
      have ha : a = Hand.LEFT := hall _ (picks_fst_mem hp)
      subst ha
      simp

/-- C9: with nine LEFT-handed hitters and Lmax = 1 (any Rmax), the
feasibility pre-check declares the constraints infeasible: after the first
LEFT is placed, every further LEFT placement would push the streak to 2 > 1
and is pruned, so the search fails. -/
theorem C9_nine_left_lmax_one_infeasible (Rmax : ℕ) :
    isConstraintImpossible 1 Rmax players9L 1 = true := by
  have hhands : handsOf players9L = List.replicate 9 Hand.LEFT := by decide
  have hstep : ¬ ((1 : ℕ) ≠ 1) := by omega
  have h9 : ¬ ((handsOf players9L).length ≠ 9) := by rw [hhands]; decide
  simp only [isConstraintImpossible, if_neg hstep, if_neg h9]
  rw [Bool.not_eq_true']
  simp only [dfs, hhands]
  show dfsAux 1 Rmax 9 (Hand.LEFT :: List.replicate 8 Hand.LEFT) none 0 0 = false
  simp only [dfsAux]
  rw [List.any_eq_false]
  rintro ⟨a, ys⟩ hp
  have hmemrep : ∀ x ∈ (Hand.LEFT :: List.replicate 8 Hand.LEFT), x = Hand.LEFT := by
    intro x hx
    rcases List.mem_cons.mp hx with h | h
    · exact h
    · exact (List.eq_of_mem_replicate h)
  have ha : a = Hand.LEFT := hmemrep _ (picks_fst_mem hp)
  subst ha
  simp only
  rw [if_neg (by simp)]
  have hys : ∀ x ∈ ys, x = Hand.LEFT := fun x hx => hmemrep _ (picks_snd_mem hp hx)
  have hyslen : ys.length = 8 := by
    have h2 : ys.length + 1 = (Hand.LEFT :: List.replicate 8 Hand.LEFT).length :=
      picks_mem_length hp
    simp at h2
    omega
  have hysne : ys ≠ [] := by
    intro h
    rw [h] at hyslen
    simp at hyslen
  rw [if_neg (by simp)]
  simp [dfsAux_allLeft_false Rmax 8 ys hys hysne]

/-- C9 (instantiation at Rmax = 5). -/
theorem C9_nine_left_lmax_one_infeasible_witness :
    isConstraintImpossible 1 5 players9L 1 = true :=
  C9_nine_left_lmax_one_infeasible 5

/-- Whitespace trim on both ends, modelling `String.prototype.trim`
(whitespace per `Char.isWhitespace`). -/
def jsTrim (l : List Char) : List Char :=
  ((l.dropWhile Char.isWhitespace).reverse.dropWhile Char.isWhitespace).reverse

/-- Split on every single space character, keeping empty pieces, modelling
`String.prototype.split(" ")` (which, unlike a regexp split, does not merge
consecutive separators). -/
def jsSplitSpaces : List Char → List (List Char)
  | [] => [[]]
  | c :: cs =>
    if c = ' ' then [] :: jsSplitSpaces cs
    else
      match jsSplitSpaces cs with
      | [] => [[c]]
      | h :: t => (c :: h) :: t

/-- Join with single spaces, modelling `Array.prototype.join(" ")`. -/
def jsJoinSpaces (parts : List (List Char)) : List Char :=
  (parts.intersperse [' ']).flatten

/-- `parseName` from `submit-lineup.ts`:
`let [firstName, ...lastParts] = fullName.trim().split(" ")`, last name is
`lastParts.join(" ") || ""`, first name falls back to `"Unknown"` when
falsy (empty). -/
def parseName (fullName : String) : String × String :=
  let parts := jsSplitSpaces (jsTrim fullName.toList)
  let first0 := String.mk (parts.headD [])
  let lastName := String.mk (jsJoinSpaces parts.tail)
  let firstName := if first0 = "" then "Unknown" else first0
  (firstName, lastName)

/-- Collapse every maximal run of whitespace into a single `'-'` (the flag
records whether the previous character was whitespace), modelling
`replace(/\s+/g, "-")`. -/
def squashWsGo : Bool → List Char → List Char
  | _, [] => []
  | inRun, c :: cs =>
    if c.isWhitespace then
      if inRun then squashWsGo true cs else '-' :: squashWsGo true cs
    else c :: squashWsGo false cs

/-- `makeId` from `submit-lineup.ts`:
`` `${firstName}-${lastName}`.toLowerCase().replace(/\s+/g, "-") ``
(`toLowerCase` modelled per-character by `Char.toLower`). -/
def makeId (firstName lastName : String) : String :=
  String.mk (squashWsGo false ((firstName ++ "-" ++ lastName).toList.map Char.toLower))

/-- The `player` object of a response entry. -/
structure PlayerName where
  firstName : String
  lastName : String
  deriving DecidableEq, Repr

/-- The `playerSeason` object of a response entry. -/
structure PlayerSeasonResp where
  player : PlayerName
  season : Option SeasonStats
  deriving DecidableEq, Repr

/-- `LineupResponseEntry` from `submit-lineup.ts`. -/
structure LineupResponseEntry where
  id : String
  playerSeason : PlayerSeasonResp
  isSelected : Bool
  isUnassigned : Bool
  deriving DecidableEq, Repr

/-- One hitter of the request body: `{ name: string; data: SeasonStats | null }`. -/
structure SelPlayer where
  name : String
  data : Option SeasonStats
  deriving DecidableEq, Repr

/-- `InputPayload` from `submit-lineup.ts`. The `selectedLineup` JS object
(integer keys → hitter or `null`) is an association list. -/
structure InputPayload where
  selectedLineup : List (ℕ × Option SelPlayer)
  unassignedPlayers : List SelPlayer
  deriving DecidableEq, Repr

/-- `LineupResponse` from `submit-lineup.ts`; the `lineup` object is an
association list kept in ascending key order (the enumeration order of an
integer-keyed JS object). -/
structure LineupResponse where
  message : String
  lineup : List (ℕ × LineupResponseEntry)
  expectedRuns : ℚ
  deriving DecidableEq, Repr

/-- Assignment `lineup[k] = v` on an integer-keyed JS object modelled as an
ascending association list: insert at the ordered position, overwriting an
existing binding of `k`. -/
def upsert (k : ℕ) (v : LineupResponseEntry) :
    List (ℕ × LineupResponseEntry) → List (ℕ × LineupResponseEntry)
  | [] => [(k, v)]
  | (k', v') :: t =>
    if k < k' then (k, v) :: (k', v') :: t
    else if k = k' then (k, v) :: t
    else (k', v') :: upsert k v t

/-- The response entry built for a spot of `selectedLineup` in Step 1 of the
handler. -/
def mkSelectedEntry (p : SelPlayer) : LineupResponseEntry :=
  let n := parseName p.name
  { id := makeId n.1 n.2,
    playerSeason := { player := { firstName := n.1, lastName := n.2 }, season := p.data },
    isSelected := true,
    isUnassigned := false }

/-- The response entry built for an unassigned player in Step 2 of the
handler. -/
def mkUnassignedEntry (p : SelPlayer) : LineupResponseEntry :=
  let n := parseName p.name
  { id := makeId n.1 n.2,
    playerSeason := { player := { firstName := n.1, lastName := n.2 }, season := p.data },
    isSelected := false,
    isUnassigned := true }

/-- The Step 1 test of the handler at one spot: the entry placed at `spot`,
or `none` when the spot is absent, `null`, or has an empty name
(`if (!entry || !entry.name) continue`). -/
def selectedAt (sl : List (ℕ × Option SelPlayer)) (spot : ℕ) :
    Option LineupResponseEntry :=
  match sl.lookup spot with
  | some (some p) => if p.name = "" then none else some (mkSelectedEntry p)
  | _ => none

/-- The batting spots `1–9` the handler iterates over. -/
def spots : List ℕ := [1, 2, 3, 4, 5, 6, 7, 8, 9]

/-- Step 1 of the handler: place every named `selectedLineup` hitter at its
spot. -/
def step1Lineup (sl : List (ℕ × Option SelPlayer)) :
    List (ℕ × LineupResponseEntry) :=
  spots.foldl
    (fun acc s =>
      match selectedAt sl s with
      | some e => upsert s e acc
      | none => acc)
    []

/-- `availableSpots`: the spots `1–9` not filled in Step 1. -/
def availableSpots0 (sl : List (ℕ × Option SelPlayer)) : List ℕ :=
  spots.filter (fun s => (selectedAt sl s).isNone)

/-- Step 2 of the handler: walk `unassignedPlayers`, stopping at the first
empty name or when no spot is left (`break`); each remaining player is placed
at `getRandomElement(availableSpots)` — modelled by `pick` — which is then
removed from the available spots. A falsy (`undefined`/`0`) pick skips the
player (`continue`). -/
def fillStep2 (pick : List ℕ → Option ℕ) :
    List SelPlayer → List ℕ → List (ℕ × LineupResponseEntry) →
    List (ℕ × LineupResponseEntry)
  | [], _, lineup => lineup
  | p :: rest, avail, lineup =>
    if p.name = "" ∨ avail = [] then lineup
    else
      match pick avail with
      | none => fillStep2 pick rest avail lineup
      | some 0 => fillStep2 pick rest avail lineup
      | some (s + 1) =>
        fillStep2 pick rest (avail.erase (s + 1))
          (upsert (s + 1) (mkUnassignedEntry p) lineup)

/-- The successful (`200`) response body of the handler: Step 1 then Step 2,
`message: "Lineup generated successfully"`, `expectedRuns: 7.5`. -/
def handlerBody (payload : InputPayload) (pick : List ℕ → Option ℕ) :
    LineupResponse :=
  { message := "Lineup generated successfully",
    lineup := fillStep2 pick payload.unassignedPlayers
      (availableSpots0 payload.selectedLineup)
      (step1Lineup payload.selectedLineup),
    expectedRuns := 15 / 2 }

/-- The two response shapes of the handler: `res.status(405).json({message})`
and `res.status(200).json(lineupResponse)`. -/
inductive HandlerResponse where
  | error (status : ℕ) (message : String)
  | success (status : ℕ) (body : LineupResponse)
  deriving DecidableEq, Repr

/-- The `handler` of `submit-lineup.ts`: `405` for non-POST methods,
otherwise the `200` response built from the payload (and the random spot
choices `pick`). -/
def handler (method : String) (payload : InputPayload)
    (pick : List ℕ → Option ℕ) : HandlerResponse :=
  if method ≠ "POST" then HandlerResponse.error 405 "Method not allowed"
  else HandlerResponse.success 200 (handlerBody payload pick)

/-- HTTP status of a handler response. -/
def statusOf : HandlerResponse → ℕ
  | HandlerResponse.error s _ => s
  | HandlerResponse.success s _ => s

/-- One realizable outcome of `getRandomElement`: the shuffle leaves the
first element first. -/
def pickHead : List ℕ → Option ℕ := List.head?

/-- Another realizable outcome of `getRandomElement`: the shuffle moves the
last element to the front. -/
def pickLast : List ℕ → Option ℕ := List.getLast?

example : parseName "Babe Ruth" = ("Babe", "Ruth") := by decide
example : parseName "" = ("Unknown", "") := by decide
example : makeId "Babe" "Ruth" = "babe-ruth" := by decide
example : makeId "Mary Jo" "Van Der Berg" = "mary-jo-van-der-berg" := by decide

theorem lookup_cons_entry {β : Type} (k a : ℕ) (b : β) (t : List (ℕ × β)) :
    List.lookup k ((a, b) :: t) = if k = a then some b else List.lookup k t := by
  by_cases h : k = a
  · rw [if_pos h]
    show (match k == a with | true => some b | false => List.lookup k t) = some b
    rw [beq_iff_eq.mpr h]
  · rw [if_neg h]
    show (match k == a with | true => some b | false => List.lookup k t) = List.lookup k t
    rw [beq_eq_false_iff_ne.mpr h]

theorem upsert_lookup (k k' : ℕ) (v : LineupResponseEntry) :
    ∀ l : List (ℕ × LineupResponseEntry),
      (upsert k v l).lookup k' = if k' = k then some v else l.lookup k' := by
  intro l
  induction l with
  | nil =>
    show List.lookup k' [(k, v)] = _
    rw [lookup_cons_entry]
  | cons hd t ih =>
    obtain ⟨a, b⟩ := hd
    simp only [upsert]
    by_cases h1 : k < a
    · rw [if_pos h1, lookup_cons_entry, lookup_cons_entry]
    · rw [if_neg h1]
      by_cases h2 : k = a
      · subst h2
        rw [if_pos rfl, lookup_cons_entry, lookup_cons_entry]
        by_cases h : k' = k <;> simp [h]
      · rw [if_neg h2, lookup_cons_entry, ih]
        by_cases hk : k' = k
        · subst hk
          have ha : k' ≠ a := fun he => h2 (he ▸ rfl)
          simp [ha]
        · simp [hk]
          rw [lookup_cons_entry]

/-- The Step 1 fold of the handler over an arbitrary spot list, starting
from an arbitrary accumulator. -/
def step1Fold (sl : List (ℕ × Option SelPlayer)) (ss : List ℕ)
    (acc : List (ℕ × LineupResponseEntry)) : List (ℕ × LineupResponseEntry) :=
  ss.foldl
    (fun acc s =>
      match selectedAt sl s with
      | some e => upsert s e acc
      | none => acc)
    acc

theorem step1Lineup_eq_fold (sl : List (ℕ × Option SelPlayer)) :
    step1Lineup sl = step1Fold sl spots [] := rfl

theorem step1Fold_cons (sl : List (ℕ × Option SelPlayer)) (x : ℕ) (xs : List ℕ)
    (acc : List (ℕ × LineupResponseEntry)) :
    step1Fold sl (x :: xs) acc
      = step1Fold sl xs
          (match selectedAt sl x with
           | some e => upsert x e acc
           | none => acc) := rfl

theorem step1Fold_lookup_notmem (sl : List (ℕ × Option SelPlayer)) :
    ∀ (ss : List ℕ) (acc : List (ℕ × LineupResponseEntry)) (s : ℕ), s ∉ ss →
      (step1Fold sl ss acc).lookup s = acc.lookup s := by
  intro ss
  induction ss with
  | nil => intro acc s _; rfl
  | cons x xs ih =>
    intro acc s hs
    have hsx : s ≠ x := fun h => hs (h ▸ List.mem_cons_self _ _)
    have hsxs : s ∉ xs := fun h => hs (List.mem_cons_of_mem _ h)
    rw [step1Fold_cons]
    cases hselx : selectedAt sl x with
    | none => simp only [hselx]; exact ih _ s hsxs
    | some e =>
      simp only [hselx]
      rw [ih _ s hsxs, upsert_lookup, if_neg hsx]

theorem step1Fold_lookup_mem (sl : List (ℕ × Option SelPlayer)) :
    ∀ (ss : List ℕ) (acc : List (ℕ × LineupResponseEntry)) (s : ℕ),
      s ∈ ss → ss.Nodup →
      (step1Fold sl ss acc).lookup s = (selectedAt sl s).or (acc.lookup s) := by
  intro ss
  induction ss with
  | nil => intro acc s hs _; simp at hs
  | cons x xs ih =>
    intro acc s hs hnd
    have hx_not : x ∉ xs := (List.nodup_cons.mp hnd).1
    have hnd2 : xs.Nodup := (List.nodup_cons.mp hnd).2
    rw [step1Fold_cons]
    rcases List.mem_cons.mp hs with h | h
    · subst h
      rw [step1Fold_lookup_notmem sl xs _ s hx_not]
      cases hsel : selectedAt sl s with
      | none => simp only [hsel]; rfl
      | some e =>
        simp only [hsel]
        rw [upsert_lookup, if_pos rfl]
        rfl
    · have hsx : s ≠ x := fun he => hx_not (he ▸ h)
      rw [ih _ s h hnd2]
      cases hselx : selectedAt sl x with
      | none => simp only [hselx]
      | some e =>
        simp only [hselx]
        rw [upsert_lookup, if_neg hsx]

theorem selectedAt_isUnassigned_false {sl : List (ℕ × Option SelPlayer)} {s : ℕ}
    {e : LineupResponseEntry} (h : selectedAt sl s = some e) :
    e.isUnassigned = false := by
  unfold selectedAt at h
  rcases hl : sl.lookup s with _ | op
  · rw [hl] at h
    exact absurd h (by simp)
  · rw [hl] at h
    cases op with
    | none => exact absurd h (by simp)
    | some p =>
      have h2 : (if p.name = "" then none
          else some (mkSelectedEntry p)) = some e := h
      by_cases hn : p.name = ""
      · rw [if_pos hn] at h2
        exact absurd h2 (by simp)
      · rw [if_neg hn] at h2
        have : e = mkSelectedEntry p := by injection h2.symm
        rw [this]
        rfl

theorem step1Fold_isUnassigned_false (sl : List (ℕ × Option SelPlayer)) :
    ∀ (ss : List ℕ) (acc : List (ℕ × LineupResponseEntry)),
      (∀ s ent, acc.lookup s = some ent → ent.isUnassigned = false) →
      ∀ s ent, (step1Fold sl ss acc).lookup s = some ent → ent.isUnassigned = false := by
  intro ss
  induction ss with
  | nil => intro acc hacc s ent h; exact hacc s ent h
  | cons x xs ih =>
    intro acc hacc s ent h
    rw [step1Fold_cons] at h
    refine ih _ ?_ s ent h
    intro s2 ent2 h2
    cases hselx : selectedAt sl x with
    | none =>
      rw [hselx] at h2
      exact hacc s2 ent2 h2
    | some e =>
      rw [hselx] at h2
      rw [upsert_lookup] at h2
      by_cases hsx : s2 = x
      · rw [if_pos hsx] at h2
        have : ent2 = e := by injection h2.symm
        rw [this]
        exact selectedAt_isUnassigned_false hselx
      · rw [if_neg hsx] at h2
        exact hacc s2 ent2 h2

/-- Soundness of a model of `getRandomElement`: a returned spot is an element
of the list it was drawn from (the source returns `shuffled[0]` of a
permuted copy). -/
def soundPick (pick : List ℕ → Option ℕ) : Prop :=
  ∀ l x, pick l = some x → x ∈ l

theorem pickHead_sound : soundPick pickHead := by
  intro l x h
  cases l with
  | nil => exact absurd h (by simp [pickHead])
  | cons a t =>
    have : a = x := by simpa [pickHead] using h
    rw [← this]
    exact List.mem_cons_self _ _

theorem pickLast_sound : soundPick pickLast := by
  intro l x h
  exact List.mem_of_getLast?_eq_some h

theorem fillStep2_lookup_notmem (pick : List ℕ → Option ℕ) (hpick : soundPick pick) :
    ∀ (ps : List SelPlayer) (avail : List ℕ)
      (lineup : List (ℕ × LineupResponseEntry)) (s : ℕ), s ∉ avail →
      (fillStep2 pick ps avail lineup).lookup s = lineup.lookup s := by
  intro ps
  induction ps with
  | nil => intro avail lineup s _; rfl
  | cons p rest ih =>
    intro avail lineup s hs
    show (if p.name = "" ∨ avail = [] then lineup else _).lookup s = _
    by_cases hbrk : p.name = "" ∨ avail = []
    · rw [if_pos hbrk]
    · rw [if_neg hbrk]
      cases hpk : pick avail with
      | none => exact ih avail lineup s hs
      | some m =>
        cases m with
        | zero => exact ih avail lineup s hs
        | succ m' =>
          have hmem : m' + 1 ∈ avail := hpick avail (m' + 1) hpk
          have hne : s ≠ m' + 1 := fun he => hs (he ▸ hmem)
          have hs' : s ∉ avail.erase (m' + 1) :=
            fun hmem' => hs (List.mem_of_mem_erase hmem')
          rw [ih _ _ s hs', upsert_lookup, if_neg hne]

theorem fillStep2_lookup_new (pick : List ℕ → Option ℕ) (hpick : soundPick pick) :
    ∀ (ps : List SelPlayer) (avail : List ℕ)
      (lineup : List (ℕ × LineupResponseEntry)) (s : ℕ) (ent : LineupResponseEntry),
      (fillStep2 pick ps avail lineup).lookup s = some ent →
      lineup.lookup s = some ent ∨ s ∈ avail := by
  intro ps
  induction ps with
  | nil => intro avail lineup s ent h; exact Or.inl h
  | cons p rest ih =>
    intro avail lineup s ent h
    rw [show fillStep2 pick (p :: rest) avail lineup
        = if p.name = "" ∨ avail = [] then lineup else _ from rfl] at h
    by_cases hbrk : p.name = "" ∨ avail = []
    · rw [if_pos hbrk] at h
      exact Or.inl h
    · rw [if_neg hbrk] at h
      cases hpk : pick avail with
      | none =>
        rw [hpk] at h
        exact ih avail lineup s ent h
      | some m =>
        rw [hpk] at h
        cases m with
        | zero => exact ih avail lineup s ent h
        | succ m' =>
          rcases ih _ _ s ent h with h1 | h1
          · rw [upsert_lookup] at h1
            by_cases hsx : s = m' + 1
            · exact Or.inr (hsx ▸ hpick avail (m' + 1) hpk)
            · rw [if_neg hsx] at h1
              exact Or.inl h1
          · exact Or.inr (List.mem_of_mem_erase h1)

/-- C7: the handler places every fixed (selected, non-empty-name) hitter at
its requested spot, and every entry it fills from `unassignedPlayers`
(`isUnassigned = true`) sits at a spot not fixed by the request: Step 1
writes exactly the fixed spots, and Step 2 draws only from the spots left
available, removing each one it uses. -/
theorem C7_fixed_position_respect (payload : InputPayload)
    (pick : List ℕ → Option ℕ) (hpick : soundPick pick) :
    (∀ s e, payload.selectedLineup.lookup s = some (some e) → e.name ≠ "" →
      s ∈ spots →
      (handlerBody payload pick).lineup.lookup s = some (mkSelectedEntry e)) ∧
    (∀ s ent, (handlerBody payload pick).lineup.lookup s = some ent →
      ent.isUnassigned = true → selectedAt payload.selectedLineup s = none) := by
  constructor
  · intro s e hlook hname hsp
    have hsel : selectedAt payload.selectedLineup s = some (mkSelectedEntry e) := by
      unfold selectedAt
      rw [hlook]
      have h2 : (if e.name = "" then (none : Option LineupResponseEntry)
          else some (mkSelectedEntry e)) = some (mkSelectedEntry e) := if_neg hname
      exact h2
    have havail : s ∉ availableSpots0 payload.selectedLineup := by
      intro hmem
      have := (List.mem_filter.mp hmem).2
      rw [hsel] at this
      simp at this
    show (fillStep2 pick payload.unassignedPlayers _ _).lookup s = _
    rw [fillStep2_lookup_notmem pick hpick _ _ _ s havail]
    rw [step1Lineup_eq_fold,
      step1Fold_lookup_mem payload.selectedLineup spots [] s hsp (by decide), hsel]
    rfl
  · intro s ent hlook hunassigned
    rcases fillStep2_lookup_new pick hpick _ _ _ s ent hlook with h | h
    · rw [step1Lineup_eq_fold] at h
      have : ent.isUnassigned = false :=
        step1Fold_isUnassigned_false payload.selectedLineup spots []
          (by intro s' e' h'; exact absurd h' (by simp [List.lookup])) s ent h
      rw [hunassigned] at this
      exact absurd this (by simp)
    · have := (List.mem_filter.mp h).2
      exact Option.isNone_iff_eq_none.mp (by simpa using this)

/-- Concrete season counts used by the closed witnesses and counterexamples. -/
def seasonRuth : SeasonStats :=
  { plateAppearances := 600, hits := 150, doubles := 30, triples := 3,
    homeruns := 20, walks := 60, hitByPitch := 6, intentionalWalks := 2,
    runs := 90, singles := 97 }

/-- A request fixing one hitter at spot 3, with one unassigned player. -/
def payloadFixed : InputPayload :=
  { selectedLineup := [(3, some { name := "Babe Ruth", data := some seasonRuth })],
    unassignedPlayers := [{ name := "Lou Gehrig", data := none }] }

/-- C7 (witness): on `payloadFixed` with the head-pick randomness, the fixed
hitter lands at spot 3. -/
theorem C7_fixed_position_respect_witness :
    (handlerBody payloadFixed pickHead).lineup.lookup 3 =
      some (mkSelectedEntry { name := "Babe Ruth", data := some seasonRuth }) :=
  (C7_fixed_position_respect payloadFixed pickHead pickHead_sound).1 3
    { name := "Babe Ruth", data := some seasonRuth } rfl (by decide) (by decide)

/-- C10: every POST request is answered with status 200 and
`expectedRuns = 7.5`, independent of the hitters, their stats, and the slot
assignments in the payload (and of the random draws). -/
theorem C10_constant_expected_runs (payload : InputPayload)
    (pick : List ℕ → Option ℕ) :
    handler "POST" payload pick
        = HandlerResponse.success 200 (handlerBody payload pick) ∧
      statusOf (handler "POST" payload pick) = 200 ∧
      (handlerBody payload pick).expectedRuns = 15 / 2 :=
  ⟨rfl, rfl, rfl⟩

/-- C10 (instantiation at a concrete payload and pick). -/
theorem C10_constant_expected_runs_witness :
    handler "POST" payloadFixed pickHead
        = HandlerResponse.success 200 (handlerBody payloadFixed pickHead) ∧
      statusOf (handler "POST" payloadFixed pickHead) = 200 ∧
      (handlerBody payloadFixed pickHead).expectedRuns = 15 / 2 :=
  C10_constant_expected_runs payloadFixed pickHead

/-- A request with no fixed hitters and a single unassigned player. -/
def payloadRand : InputPayload :=
  { selectedLineup := [],
    unassignedPlayers := [{ name := "Lou Gehrig", data := none }] }

/-- C2 (counterexample): on `payloadRand`, two realizable outcomes of the
`Math.random`-driven shuffle in `getRandomElement` put the single unassigned
player at spot 1 and at spot 9 respectively, so two runs of the handler on
the identical request can produce different responses. -/
theorem C2_determinism_counterexample :
    handlerBody payloadRand pickHead ≠ handlerBody payloadRand pickLast ∧
      ((handlerBody payloadRand pickHead).lineup.lookup 1).isSome = true ∧
      ((handlerBody payloadRand pickLast).lineup.lookup 1).isSome = false := by
  refine ⟨?_, by decide, by decide⟩
  intro h
  exact absurd (congrArg (fun r => (r.lineup.lookup 1).isSome) h) (by decide)

/-- C2 (amended): the response is a deterministic function of the request
together with the random spot choices; in particular when the request has no
unassigned players the randomness is never consulted and identical requests
produce identical responses. -/
theorem C2_deterministic_without_unassigned (method : String)
    (payload : InputPayload) (pick1 pick2 : List ℕ → Option ℕ)
    (h : payload.unassignedPlayers = []) :
    handler method payload pick1 = handler method payload pick2 := by
  unfold handler handlerBody
  rw [h]
  rfl

/-- A request fixing one hitter and leaving `unassignedPlayers` empty. -/
def payloadDet : InputPayload :=
  { selectedLineup := [(1, some { name := "Babe Ruth", data := some seasonRuth })],
    unassignedPlayers := [] }

/-- C2 (witness for the amended theorem). -/
theorem C2_deterministic_without_unassigned_witness :
    handler "POST" payloadDet pickHead = handler "POST" payloadDet pickLast :=
  C2_deterministic_without_unassigned "POST" payloadDet pickHead pickLast rfl

/-- A request in which the hitter fixed at spot 1 carries `data: null`. -/
def payloadNull : InputPayload :=
  { selectedLineup := [(1, some { name := "No Stats", data := none })],
    unassignedPlayers := [] }

/-- C3 (counterexample): `payloadNull` carries a `data: null` hitter, yet the
handler answers it with status 200 and a generated lineup containing that
hitter (with `season: null`) — the request surface performs no stats
validation and never rejects such a request. -/
theorem C3_null_data_counterexample :
    (∃ s e, payloadNull.selectedLineup.lookup s = some (some e) ∧ e.data = none) ∧
      handler "POST" payloadNull pickHead
        = HandlerResponse.success 200 (handlerBody payloadNull pickHead) ∧
      ((handlerBody payloadNull pickHead).lineup.lookup 1).isSome = true :=
  ⟨⟨1, { name := "No Stats", data := none }, rfl, rfl⟩, rfl, by decide⟩

/-- C3 (amended): the API handler returns status 200 for every POST payload,
`data: null` hitters included; the all-nine-must-supply-stats rule lives only
in the build UI, whose Next button is disabled whenever a selected player
lacks a season. -/
theorem C3_null_rejected_only_in_ui :
    (∀ (payload : InputPayload) (pick : List ℕ → Option ℕ),
      statusOf (handler "POST" payload pick) = 200) ∧
    (∀ (Lmax Rmax step : ℕ) (players : List PlayerSeasonLite),
      (∃ ps ∈ players, ps.season = none) →
      nextDisabled Lmax Rmax players step = true) := by
  constructor
  · intro payload pick
    rfl
  · rintro Lmax Rmax step players ⟨ps, hmem, hnone⟩
    have hany : players.any (fun ps => ps.season.isNone) = true :=
      List.any_eq_true.mpr ⟨ps, hmem, by rw [hnone]; rfl⟩
    unfold nextDisabled
    rw [hany]
    simp

/-- C3 (witness for the amended theorem). -/
theorem C3_null_rejected_only_in_ui_witness :
    statusOf (handler "POST" payloadNull pickHead) = 200 ∧
      nextDisabled 0 0 [mkPlayer Hand.LEFT] 1 = true :=
  ⟨C3_null_rejected_only_in_ui.1 payloadNull pickHead,
   C3_null_rejected_only_in_ui.2 0 0 1 [mkPlayer Hand.LEFT]
     ⟨mkPlayer Hand.LEFT, List.mem_cons_self _ _, rfl⟩⟩

/-- The hitting stat block of one MLB API season split, as read by
`getPlayerStats` in `mlb.ts` (integer counts). -/
structure MlbStat where
  plateAppearances : ℤ
  runs : ℤ
  hits : ℤ
  doubles : ℤ
  triples : ℤ
  homeRuns : ℤ
  baseOnBalls : ℤ
  hitByPitch : ℤ
  intentionalWalks : ℤ
  deriving DecidableEq, Repr

/-- The team block of a split (`s.team?.id`, `s.team?.name`). -/
structure MlbTeam where
  id : Option ℤ
  name : Option String
  deriving DecidableEq, Repr

/-- One season split of the MLB stats response (`s.season`, `s.stat?`,
`s.team?`). -/
structure MlbSplit where
  season : String
  stat : Option MlbStat
  team : Option MlbTeam
  deriving DecidableEq, Repr

/-- Leading-digits integer parse, modelling `parseInt` on the season strings
the MLB API returns (plain digit strings); `none` models `NaN`. -/
def jsParseInt (s : String) : Option ℤ :=
  let ds := s.toList.takeWhile Char.isDigit
  if ds = [] then none
  else some ((ds.foldl (fun n c => n * 10 + (c.toNat - '0'.toNat)) 0 : ℕ) : ℤ)

/-- One row of the list `getPlayerStats` returns. -/
structure SeasonRow where
  id : String
  year : Option ℤ
  plateAppearances : ℤ
  runs : ℤ
  hits : ℤ
  singles : ℤ
  doubles : ℤ
  triples : ℤ
  homeruns : ℤ
  walks : ℤ
  hitByPitch : ℤ
  intentionalWalks : ℤ
  playerId : String
  teamId : String
  teamName : String
  league : String

/-- The split-to-row mapping of `getPlayerStats` in `mlb.ts`:
`splits.filter(s => s.stat?.plateAppearances).map(s => ({ ...,
singles: s.stat.hits - (s.stat.doubles + s.stat.triples + s.stat.homeRuns),
... }))` — `none` when the split is dropped by the filter (missing stat block
or zero/absent plate appearances, both falsy). -/
def ingestSplit (personId : ℤ) (league : String) (s : MlbSplit) :
    Option SeasonRow :=
  match s.stat with
  | none => none
  | some st =>
    if st.plateAppearances = 0 then none
    else some
      { id := toString personId ++ "-" ++ s.season,
        year := jsParseInt s.season,
        plateAppearances := st.plateAppearances,
        runs := st.runs,
        hits := st.hits,
        singles := st.hits - (st.doubles + st.triples + st.homeRuns),
        doubles := st.doubles,
        triples := st.triples,
        homeruns := st.homeRuns,
        walks := st.baseOnBalls,
        hitByPitch := st.hitByPitch,
        intentionalWalks := st.intentionalWalks,
        playerId := toString personId,
        teamId := (s.team.bind (fun t => t.id)).elim "" toString,
        teamName := (s.team.bind (fun t => t.name)).getD "Unknown Team",
        league := league }

/-- C8: every stat line the MLB ingestion keeps has its singles count
recomputed as hits minus doubles minus triples minus home runs. -/
theorem C8_singles_recomputed (personId : ℤ) (league : String) (s : MlbSplit)
    (row : SeasonRow) (h : ingestSplit personId league s = some row) :
    ∃ st, s.stat = some st ∧
      row.singles = st.hits - st.doubles - st.triples - st.homeRuns := by
  unfold ingestSplit at h
  split at h
  · exact absurd h (by simp)
  · rename_i st hst
    split at h
    · exact absurd h (by simp)
    · refine ⟨st, hst, ?_⟩
      have hrow := Option.some.inj h
      rw [← hrow]
      ring

/-- A concrete 2019 split with 150 hits, 30 doubles, 3 triples and 20 home
runs. -/
def split2019 : MlbSplit :=
  { season := "2019",
    stat := some
      { plateAppearances := 600, runs := 90, hits := 150, doubles := 30,
        triples := 3, homeRuns := 20, baseOnBalls := 60, hitByPitch := 6,
        intentionalWalks := 2 },
    team := none }

/-- The row `getPlayerStats` builds from `split2019` for person 1. -/
def row2019 : SeasonRow := (ingestSplit 1 "MLB" split2019).get (by decide)

/-- C8 (witness): on `split2019` the kept row's singles count is
150 − 30 − 3 − 20. -/
theorem C8_singles_recomputed_witness :
    ∃ st, split2019.stat = some st ∧
      row2019.singles = st.hits - st.doubles - st.triples - st.homeRuns :=
  C8_singles_recomputed 1 "MLB" split2019 row2019 (Option.some_get _).symm

/-- A JSON value, used to read the handler's serialized response the way the
spec's `response.lineups[0].score` path would. -/
inductive Json where
  | null : Json
  | bool (b : Bool) : Json
  | num (q : ℚ) : Json
  | str (s : String) : Json
  | arr (items : List Json) : Json
  | obj (fields : List (String × Json)) : Json

/-- Field access on a JSON object. -/
def Json.lookupKey : Json → String → Option Json
  | Json.obj fields, k => fields.lookup k
  | _, _ => none

/-- Index access on a JSON array. -/
def Json.index : Json → ℕ → Option Json
  | Json.arr items, i => items.get? i
  | _, _ => none

/-- Numeric payload of a JSON value. -/
def Json.asNum : Json → Option ℚ
  | Json.num q => some q
  | _ => none

/-- JSON encoding of a season block (field order of the `SeasonStats` type in
`submit-lineup.ts`). -/
def encodeSeason (st : SeasonStats) : Json :=
  Json.obj
    [("plateAppearances", Json.num st.plateAppearances),
     ("hits", Json.num st.hits),
     ("doubles", Json.num st.doubles),
     ("triples", Json.num st.triples),
     ("homeruns", Json.num st.homeruns),
     ("walks", Json.num st.walks),
     ("hitByPitch", Json.num st.hitByPitch),
     ("intentionalWalks", Json.num st.intentionalWalks),
     ("runs", Json.num st.runs),
     ("singles", Json.num st.singles)]

/-- JSON encoding of one response lineup entry, mirroring the object literals
of the handler. -/
def encodeEntry (e : LineupResponseEntry) : Json :=
  Json.obj
    [("id", Json.str e.id),
     ("playerSeason", Json.obj
       [("player", Json.obj
         [("firstName", Json.str e.playerSeason.player.firstName),
          ("lastName", Json.str e.playerSeason.player.lastName)]),
        ("season", (e.playerSeason.season.map encodeSeason).getD Json.null)]),
     ("isSelected", Json.bool e.isSelected),
     ("isUnassigned", Json.bool e.isUnassigned)]

/-- JSON encoding of the integer-keyed `lineup` object (keys serialize in
ascending numeric order, which is how the association list is kept). -/
def encodeLineup (l : List (ℕ × LineupResponseEntry)) : Json :=
  Json.obj (l.map fun kv => (toString kv.1, encodeEntry kv.2))

/-- JSON encoding of the handler's 200 response
`{ message, lineup, expectedRuns: 7.5 }` (insertion order of the object
literal). -/
def encodeResponse (r : LineupResponse) : Json :=
  Json.obj
    [("message", Json.str r.message),
     ("lineup", encodeLineup r.lineup),
     ("expectedRuns", Json.num r.expectedRuns)]

/-- The spec's path `response.lineups[0].score`, read generically off a JSON
response. -/
def topLineupScore (j : Json) : Option ℚ :=
  (((j.lookupKey "lineups").bind (fun a => a.index 0)).bind
    (fun e => e.lookupKey "score")).bind Json.asNum

/-- C1 (counterexample): a concrete successful response of the handler has no
`lineups[0].score` value at all (the response carries a `lineup` object
without scores), so its reported `expectedRuns` does not equal the score of a
top-ranked lineup. -/
theorem C1_expected_runs_counterexample :
    ¬ ∃ q, topLineupScore (encodeResponse (handlerBody payloadFixed pickHead))
        = some q ∧
      (handlerBody payloadFixed pickHead).expectedRuns = q := by
  rintro ⟨q, hq, _⟩
  have hn : topLineupScore (encodeResponse (handlerBody payloadFixed pickHead))
      = none := rfl
  rw [hn] at hq
  exact absurd hq (by simp)

/-- C1 (amended): every successful response lacks a ranked `lineups` list and
per-lineup scores entirely — the `lineups[0].score` path resolves to nothing —
and its `expectedRuns` is the constant 7.5. -/
theorem C1_no_top_score_constant_runs (payload : InputPayload)
    (pick : List ℕ → Option ℕ) :
    topLineupScore (encodeResponse (handlerBody payload pick)) = none ∧
      (handlerBody payload pick).expectedRuns = 15 / 2 :=
  ⟨rfl, rfl⟩

/-- C1 (instantiation at a concrete payload and pick). -/
theorem C1_no_top_score_constant_runs_witness :
    topLineupScore (encodeResponse (handlerBody payloadRand pickLast)) = none ∧
      (handlerBody payloadRand pickLast).expectedRuns = 15 / 2 :=
  C1_no_top_score_constant_runs payloadRand pickLast
